import Mathlib

/-!
Verification of the fetch-and-resolve pipeline of the publisher-Themes
repository (sources: .scripts/fetch_publisher_images.py and
.scripts/comixology-to-ubooquity.py).

Strings manipulated by the Python code are modelled as Lean String or
List Char.  Python's str.lower is applied only to decide membership of
ASCII substrings ("logo", "icon", ...), so it is modelled by ASCII case
folding; full Unicode case tables are immaterial to the verified
properties.  Network requests, the filesystem and the random generator
are modelled as explicit parameters or oracles, and every network call
made by the embedded code is recorded in an explicit trace.
-/

/-- ASCII case folding, modelling the use Python's str.lower is put to here
(membership tests of ASCII needles, scoring). -/
def lowerChar (c : Char) : Char :=
  if 'A' ≤ c ∧ c ≤ 'Z' then Char.ofNat (c.toNat + 32) else c

/-- Python's substring test `needle in hay` on lists of characters. -/
def containsSub (needle : List Char) : List Char → Bool
  | [] => needle.isPrefixOf []
  | c :: cs => needle.isPrefixOf (c :: cs) || containsSub needle cs

/-- Python's `s.endswith(suffixes)` for a tuple of suffixes. -/
def endsWithAny (s : List Char) (suffixes : List (List Char)) : Bool :=
  suffixes.any (fun suf => suf.isSuffixOf s)

/-- `score_image_candidate(url, alt, klass, img_id)` from
fetch_publisher_images.py (lines 122-137), translated clause by clause:
the text searched is the space-join of the four fields, lower-cased. -/
def score_image_candidate (url alt klass img_id : List Char) : Int :=
  let text := (url ++ ' ' :: alt ++ ' ' :: klass ++ ' ' :: img_id).map lowerChar
  let score : Int := 0
  let score := if containsSub "logo".toList text then score + 6 else score
  let score := if containsSub "brand".toList text then score + 3 else score
  let score :=
    if containsSub "header".toList text || containsSub "banner".toList text then
      score + 1
    else score
  let score :=
    if containsSub "sprite".toList text || containsSub "icon".toList text then
      score - 2
    else score
  let score :=
    if endsWithAny (url.map lowerChar)
        [".png".toList, ".jpg".toList, ".jpeg".toList, ".webp".toList, ".gif".toList] then
      score + 2
    else score
  let score :=
    if ".svg".toList.isSuffixOf (url.map lowerChar) then score - 2 else score
  score

/-- The additive scoring heuristic exactly as the specification words it
(spec section 4.3): a sum of independent bonus/penalty terms.  This is the
spec-side definition, to be compared with `score_image_candidate`. -/
def spec_additive_score (url alt klass img_id : List Char) : Int :=
  let text := (url ++ ' ' :: alt ++ ' ' :: klass ++ ' ' :: img_id).map lowerChar
  (if containsSub "logo".toList text then (6 : Int) else 0)
    + (if containsSub "brand".toList text then 3 else 0)
    + (if containsSub "header".toList text || containsSub "banner".toList text then 1 else 0)
    + (if containsSub "sprite".toList text || containsSub "icon".toList text then -2 else 0)
    + (if endsWithAny (url.map lowerChar)
          [".png".toList, ".jpg".toList, ".jpeg".toList, ".webp".toList, ".gif".toList] then
        2 else 0)
    + (if ".svg".toList.isSuffixOf (url.map lowerChar) then -2 else 0)

/-- `get_random_delay(lower, upper)` from comixology-to-ubooquity.py
(lines 224-229).  The call to random.normalvariate is modelled by an
arbitrary sampler passed in as a function of (mean, sigma). -/
def get_random_delay (normalvariate : ℚ → ℚ → ℚ) (lower upper : ℚ) : ℚ :=
  let range_ := upper - lower
  let mean := (upper + lower) / 2
  let delay := normalvariate mean (range_ / 4)
  max lower (min upper delay)

/-- One scored image reference, as built by
SimpleHTMLImageParser._add_candidate (fetch_publisher_images.py lines
66-70): url after urljoin, score, and the source kind string. -/
structure Candidate where
  url : List Char
  score : Int
  source : String
deriving DecidableEq, Repr

/-- One start-tag event handed to handle_starttag by html.parser: the tag
name and the attribute list (attribute values may be absent). -/
structure TagEvent where
  tag : List Char
  attrs : List (List Char × Option (List Char))
deriving DecidableEq, Repr

/-- The dict comprehension `{k.lower(): v for k, v in attrs if k}` followed
by `.get(key)`: empty attribute names are dropped, later duplicates
override earlier ones, and a stored value of None is returned as None. -/
def attrsGet (attrs : List (List Char × Option (List Char))) (key : List Char) :
    Option (List Char) :=
  let d := (attrs.filter (fun kv => !kv.1.isEmpty)).map
    (fun kv => (kv.1.map lowerChar, kv.2))
  match d.reverse.find? (fun kv => kv.1 == key) with
  | none => none
  | some kv => kv.2

/-- Python `x or y` on strings where a missing dict entry or a None value
reads as the empty string, as in `attrs_dict.get("property") or
attrs_dict.get("name") or ""`. -/
def pyOrStr (a b : List Char) : List Char :=
  if a.isEmpty then b else a

/-- State of SimpleHTMLImageParser: the (mutable) base url and the
accumulated candidate list, in document order. -/
structure ParserState where
  base_url : List Char
  candidates : List Candidate
deriving Repr

/-- `_add_candidate(url, score, source)` (lines 66-70): drop empty urls and
data: urls, join against the current base url, append. The urljoin
function is passed in as a parameter `uj`. -/
def add_candidate (uj : List Char → List Char → List Char)
    (st : ParserState) (url : List Char) (score : Int) (source : String) :
    ParserState :=
  if url.isEmpty || "data:".toList.isPrefixOf url then st
  else { st with candidates := st.candidates ++ [⟨uj st.base_url url, score, source⟩] }

/-- `SimpleHTMLImageParser.handle_starttag` (lines 34-64), one tag event. -/
def handle_starttag (uj : List Char → List Char → List Char)
    (st : ParserState) (ev : TagEvent) : ParserState :=
  let attrs_dict := fun k => attrsGet ev.attrs k
  let tagl := ev.tag.map lowerChar
  if tagl = "base".toList then
    match attrs_dict "href".toList with
    | some href => if href.isEmpty then st else { st with base_url := href }
    | none => st
  else if tagl = "meta".toList then
    let prop := (pyOrStr ((attrs_dict "property".toList).getD [])
        ((attrs_dict "name".toList).getD [])).map lowerChar
    let content := (attrs_dict "content".toList).getD []
    if (prop = "og:image".toList ∨ prop = "twitter:image".toList ∨
        prop = "twitter:image:src".toList) ∧ ¬ content.isEmpty then
      add_candidate uj st content 8 "meta"
    else st
  else if tagl = "link".toList then
    let rel := ((attrs_dict "rel".toList).getD []).map lowerChar
    let href := (attrs_dict "href".toList).getD []
    if ¬ href.isEmpty ∧
        (containsSub "icon".toList rel ∨ containsSub "apple-touch-icon".toList rel) then
      add_candidate uj st href 6 "icon"
    else st
  else if tagl = "img".toList then
    let src := (attrs_dict "src".toList).getD []
    if src.isEmpty then st
    else
      let alt := (attrs_dict "alt".toList).getD []
      let klass := (attrs_dict "class".toList).getD []
      let img_id := (attrs_dict "id".toList).getD []
      add_candidate uj st src (score_image_candidate src alt klass img_id) "img"
  else st

/-- Feeding a whole page to SimpleHTMLImageParser: fold handle_starttag
over the start-tag events, starting from the response's final url. -/
def parse_image_tags (uj : List Char → List Char → List Char)
    (resp_url : List Char) (events : List TagEvent) : ParserState :=
  events.foldl (handle_starttag uj) ⟨resp_url, []⟩

/-- The pure tail of `fetch_html_candidates` (lines 235-240): parse the
page, then `sorted(parser.candidates, key=lambda c: c["score"],
reverse=True)`.  Python's sorted is a stable sort; with reverse=True it
keeps first-seen order among equal keys, which is exactly a stable merge
sort under the reversed comparison. -/
def rank_candidates (uj : List Char → List Char → List Char)
    (resp_url : List Char) (events : List TagEvent) : List Candidate :=
  (parse_image_tags uj resp_url events).candidates.mergeSort
    (fun a b => b.score ≤ a.score)

/-- Characters kept verbatim by the `[^a-z0-9]+` substitutions: lowercase
ASCII letters and digits. -/
def isKeyChar (c : Char) : Bool :=
  ('a' ≤ c ∧ c ≤ 'z') ∨ ('0' ≤ c ∧ c ≤ '9')

/-- `re.sub(r"X+", rep, text)` for a character class X = the complement of
`keep`: every maximal run of non-kept characters is replaced by the single
character `rep`.  The Bool flag records whether we are inside such a run
(whose replacement has already been emitted). -/
def subRunsWith (keep : Char → Bool) (rep : Char) : Bool → List Char → List Char
  | _, [] => []
  | inRun, c :: cs =>
    if keep c then c :: subRunsWith keep rep false cs
    else if inRun then subRunsWith keep rep true cs
    else rep :: subRunsWith keep rep true cs

/-- The whitespace set of Python's str.strip / `\s` as it can occur in
this pipeline (after the substitutions only ' ' is reachable). -/
def pyIsSpace (c : Char) : Bool :=
  c = ' ' ∨ c = '\t' ∨ c = '\n' ∨ c = '\r' ∨ c = '\x0b' ∨ c = '\x0c'

/-- Python's `text.strip()`: drop whitespace from both ends. -/
def pyStrip (l : List Char) : List Char :=
  ((l.dropWhile pyIsSpace).reverse.dropWhile pyIsSpace).reverse

/-- Python's `text.strip(ch)` for one strip character. -/
def pyStripChar (ch : Char) (l : List Char) : List Char :=
  ((l.dropWhile (fun c => c = ch)).reverse.dropWhile (fun c => c = ch)).reverse

/-- Python's `text.replace("&", rep)`. -/
def replaceAmp (rep : List Char) (l : List Char) : List Char :=
  l.foldr (fun c acc => if c = '&' then rep ++ acc else c :: acc) []

/-- The apostrophe/backquote/right-quote class of `re.sub(r"['`’]", ...)`. -/
def isQuoteChar (c : Char) : Bool :=
  c = '\'' ∨ c = '\x60' ∨ c = '’'

/-- `normalize_key(name)` from fetch_publisher_images.py (lines 145-152).
unicodedata.normalize("NFKD", ·), unicodedata.combining and str.lower
depend on the Unicode tables, so they are taken as parameters; the
regex/strip tail is translated step by step. -/
def normalize_key (nfkd : List Char → List Char) (combining : Char → Bool)
    (lower : List Char → List Char) (name : List Char) : List Char :=
  let text := nfkd name
  let text := text.filter (fun c => ¬ combining c)
  let text := lower text
  let text := replaceAmp "and".toList text
  let text := text.filter (fun c => ¬ isQuoteChar c)
  let text := pyStrip (subRunsWith isKeyChar ' ' false text)
  subRunsWith (fun c => ¬ pyIsSpace c) ' ' false text

/-- `slugify_bdbase(name)` from fetch_publisher_images.py (lines 257-264),
with the same Unicode-table parameters as `normalize_key`. -/
def slugify_bdbase (nfkd : List Char → List Char) (combining : Char → Bool)
    (lower : List Char → List Char) (name : List Char) : List Char :=
  let text := nfkd name
  let text := text.filter (fun c => ¬ combining c)
  let text := lower text
  let text := replaceAmp " et ".toList text
  let text := text.map (fun c => if isQuoteChar c then ' ' else c)
  let text := pyStripChar '-' (subRunsWith isKeyChar '-' false text)
  subRunsWith (fun c => c ≠ '-') '-' false text

/-- PIL image modes that can come out of decoding a downloaded raster
image.  "RGBA" and "LA" are the alpha modes tested by make_square. -/
inductive PMode
  | RGB
  | RGBA
  | LA
  | L
  | P
  | CMYK
deriving DecidableEq, Repr

/-- A decoded raster image: mode, size and a pixel map giving
(r, g, b, a).  Greyscale modes store their level replicated over the
three colour channels; opaque modes store a = 255. -/
structure PImage where
  mode : PMode
  width : Nat
  height : Nat
  px : Nat → Nat → Nat × Nat × Nat × Nat

/-- `Image.new("RGB", size, colour)`. -/
def pil_new_rgb (w h : Nat) (colour : Nat × Nat × Nat) : PImage :=
  ⟨PMode.RGB, w, h, fun _ _ => (colour.1, colour.2.1, colour.2.2, 255)⟩

/-- The last band of `image.split()`: for RGBA and LA the alpha channel. -/
def pil_alpha_band (img : PImage) : Nat → Nat → Nat :=
  fun x y => (img.px x y).2.2.2

/-- `background.paste(image, mask=mask)` with an 8-bit mask: per-pixel
blend of the pasted image over the background, result opaque. -/
def pil_paste_mask (bg : PImage) (fg : PImage) (mask : Nat → Nat → Nat) : PImage :=
  { bg with
    px := fun x y =>
      let m := mask x y
      let f := fg.px x y
      let b := bg.px x y
      ((f.1 * m + b.1 * (255 - m)) / 255,
       (f.2.1 * m + b.2.1 * (255 - m)) / 255,
       (f.2.2.1 * m + b.2.2.1 * (255 - m)) / 255,
       255) }

/-- `image.convert("RGB")` on a non-alpha mode: same colour content,
opaque, mode RGB. -/
def pil_convert_rgb (img : PImage) : PImage :=
  { img with
    mode := PMode.RGB
    px := fun x y =>
      let p := img.px x y
      (p.1, p.2.1, p.2.2.1, 255) }

/-- `image.crop((left, top, right, bottom))`. -/
def pil_crop (img : PImage) (left top right bottom : Nat) : PImage :=
  { img with
    width := right - left
    height := bottom - top
    px := fun x y => img.px (left + x) (top + y) }

/-- `image.resize((w, h), Image.LANCZOS)`.  Only the dimensions of the
result matter to the verified claims; resampling is modelled by index
scaling. -/
def pil_resize (img : PImage) (w h : Nat) : PImage :=
  { img with
    width := w
    height := h
    px := fun x y => img.px (x * img.width / w) (y * img.height / h) }

/-- `make_square(image, size)` from fetch_publisher_images.py (lines
319-334), line by line. -/
def make_square (image : PImage) (size : Nat) : PImage :=
  let image :=
    if image.mode = PMode.RGBA ∨ image.mode = PMode.LA then
      let background := pil_new_rgb image.width image.height (255, 255, 255)
      pil_paste_mask background image (pil_alpha_band image)
    else if image.mode ≠ PMode.RGB then
      pil_convert_rgb image
    else
      image
  let width := image.width
  let height := image.height
  let min_side := min width height
  let left := (width - min_side) / 2
  let top := (height - min_side) / 2
  let right := left + min_side
  let bottom := top + min_side
  let image := pil_crop image left top right bottom
  pil_resize image size size

/-- One resolution record as written to cache.json by the script: the dict
built by resolve_publisher_info, optionally extended by the three
bdbase_* keys (an outer none models a key that is absent from the dict). -/
structure Info where
  wiki_title : Option String
  wiki_lang : String
  qid : Option String
  official_url : Option String
  logo_filename : Option String
  bdbase_description : Option (Option String) := none
  bdbase_website : Option (Option String) := none
  bdbase_url : Option (Option String) := none
deriving DecidableEq, Repr

/-- The on-disk cache document: entity name keyed records. -/
abbrev Cache := List (String × Info)

/-- `cache.get(name)` on the JSON object: last write wins. -/
def cacheGet (cache : Cache) (name : String) : Option Info :=
  match cache.reverse.find? (fun kv => kv.1 == name) with
  | none => none
  | some kv => some kv.2

/-- `cache[name] = info` on the JSON object. -/
def cachePut (cache : Cache) (name : String) (info : Info) : Cache :=
  cache ++ [(name, info)]

/-- `load_cache(cache_path)` from fetch_publisher_images.py (lines
341-345).  The filesystem and JSON parser are modelled by the argument:
none when os.path.exists is false, otherwise the outcome of json.load
(Except.error = json.load raised).  The function body has no exception
handler, so a parse failure propagates unchanged. -/
def load_cache (file : Option (Except String Cache)) : Except String Cache :=
  match file with
  | none => Except.ok []
  | some parsed => parsed

/-- Outcome of one call to the wrapped requests.Session.request
(`original_request`) in comixology-to-ubooquity.py: a response or a
requests.exceptions.ConnectionError. -/
inductive DispatchResult
  | resp (r : Nat)
  | connError
deriving DecidableEq, Repr

/-- The body of the retry loop `for attempt in range(1, attempts)` of
make_requests_session.request (comixology-to-ubooquity.py lines 242-260),
iterating over the remaining values of `attempt`.  Returns what the
Python function returns — none models falling off the loop and returning
None, some (Except.error ()) models the re-raised ConnectionError, some
(Except.ok r) a response — together with the number of dispatches made. -/
def request_retry_go (dispatch : Nat → DispatchResult) (attempts : Nat) :
    List Nat → Nat → Option (Except Unit Nat) × Nat
  | [], count => (none, count)
  | attempt :: rest, count =>
    match dispatch attempt with
    | DispatchResult.resp r => (some (Except.ok r), count + 1)
    | DispatchResult.connError =>
      if attempt ≥ attempts then (some (Except.error ()), count + 1)
      else request_retry_go dispatch attempts rest (count + 1)

/-- `session.request` as installed by make_requests_session (lines
237-260): `attempts = max(1, arguments.request_attempts)` followed by the
retry loop over `range(1, attempts)`. -/
def session_request (request_attempts : Int) (dispatch : Nat → DispatchResult) :
    Option (Except Unit Nat) × Nat :=
  let attempts := max 1 request_attempts
  request_retry_go dispatch attempts.toNat (List.range' 1 (attempts.toNat - 1)) 0

/-- One outbound HTTP request made by fetch_publisher_images.py, recorded
in the order issued.  The download tag carries the resolver step that
issued it ("official", "bdbase" or "wikimedia"). -/
inductive ReqTag
  | wikiSearch (lang name : String)
  | wikiPageprops (lang title : String)
  | wikidataClaims (qid : String)
  | pageFetch (url : String)
  | download (ctx : String) (url : String)
  | bdbaseSlugFetch (slug : String)
  | bdbaseDetailsFetch (slug : String)
deriving DecidableEq, Repr

/-- The Wikipedia search / pageprops / Wikidata claim APIs. -/
def ReqTag.isWikiApi : ReqTag → Bool
  | ReqTag.wikiSearch _ _ => true
  | ReqTag.wikiPageprops _ _ => true
  | ReqTag.wikidataClaims _ => true
  | _ => false

/-- A download of the structured-data (wikimedia commons) file. -/
def ReqTag.isWikimediaDownload : ReqTag → Bool
  | ReqTag.download ctx _ => ctx == "wikimedia"
  | _ => false

/-- Fields extracted by fetch_bdbase_details from a 200 response. -/
structure BdDetails where
  description : Option String
  website : Option String
deriving DecidableEq, Repr

/-- The network, as seen by fetch_publisher_images.py.  For the page and
download oracles, none models a raised requests exception (connection
error or raise_for_status); some none on download_image models the
function returning None (SVG content type, oversized payload, or bytes
that do not decode). -/
structure NetEnv where
  wiki_search : String → String → Option String
  wiki_pageprops : String → String → Option String
  wikidata_claims : String → String → Option String
  page : String → Option (String × List TagEvent)
  download_image : String → Option (Option PImage)
  bdbase_slug_page : String → Option String
  bdbase_details : String → Option BdDetails

/-- Unicode-table-dependent primitives of normalize_key/slugify_bdbase. -/
structure TextEnv where
  nfkd : List Char → List Char
  combining : Char → Bool
  lower : List Char → List Char

/-- Python truthiness of an optional string: None and "" are falsy. -/
def truthyS : Option String → Bool
  | none => false
  | some s => !s.isEmpty

/-- Python `x or y` over optional strings, as in
`first_claim_value(claims, "P154") or first_claim_value(claims, "P18")`. -/
def pyOrOptS (a b : Option String) : Option String :=
  if truthyS a then a else b

/-- The record returned by resolve_publisher_info when no page title was
found usable. -/
def emptyInfo (lang : String) : Info :=
  ⟨none, lang, none, none, none, none, none, none⟩

/-- The tail of resolve_publisher_info once the title search settled on a
title candidate and language: the `if not title` early return, the
pageprops lookup, and the single Wikidata claims fetch read at P856 and
P154/P18 (fetch_publisher_images.py lines 358-375). -/
def resolve_from_title (env : NetEnv) (title : Option String) (lang : String)
    (tr : List ReqTag) : Info × List ReqTag :=
  if ¬ truthyS title then (emptyInfo lang, tr)
  else
    let t := title.getD ""
    let qid := env.wiki_pageprops t lang
    if ¬ truthyS qid then
      ({ emptyInfo lang with wiki_title := some t },
        tr ++ [ReqTag.wikiPageprops lang t])
    else
      let q := qid.getD ""
      let official_url := env.wikidata_claims q "P856"
      let logo_filename := pyOrOptS (env.wikidata_claims q "P154") (env.wikidata_claims q "P18")
      (⟨some t, lang, some q, official_url, logo_filename, none, none, none⟩,
        tr ++ [ReqTag.wikiPageprops lang t] ++ [ReqTag.wikidataClaims q])

/-- `resolve_publisher_info(name)` from fetch_publisher_images.py (lines
353-375), at its call site lang="fr": search fr, fall back to en (the
language sticks to en only when that search found a truthy title), then
the `resolve_from_title` tail. -/
def resolve_publisher_info (env : NetEnv) (name : String) : Info × List ReqTag :=
  let t1 := env.wiki_search name "fr"
  if truthyS t1 then
    resolve_from_title env t1 "fr" [ReqTag.wikiSearch "fr" name]
  else
    let t2 := env.wiki_search name "en"
    resolve_from_title env t2 (if truthyS t2 then "en" else "fr")
      [ReqTag.wikiSearch "fr" name, ReqTag.wikiSearch "en" name]

/-- `wikimedia_file_url(filename)` (lines 231-232); requests.utils.quote
is a parameter. -/
def wikimedia_file_url (quote : String → String) (filename : String) : String :=
  "https://commons.wikimedia.org/wiki/Special:FilePath/" ++ quote filename

/-- The candidate loop of find_image_from_official_site (lines 386-393):
try each ranked candidate, treating a raised download as a failed
candidate, until one yields an image. -/
def try_candidates (env : NetEnv) : List Candidate → Option (PImage × String) × List ReqTag
  | [] => (none, [])
  | c :: rest =>
    let u := c.url.asString
    match env.download_image u with
    | some (some img) => (some (img, u), [ReqTag.download "official" u])
    | _ =>
      let r := try_candidates env rest
      (r.1, ReqTag.download "official" u :: r.2)

/-- `find_image_from_official_site(url)` (lines 378-393). -/
def find_image_from_official_site (env : NetEnv)
    (uj : List Char → List Char → List Char) (url : Option String) :
    Option (PImage × String) × List ReqTag :=
  if ¬ truthyS url then (none, [])
  else
    let u := url.getD ""
    match env.page u with
    | none => (none, [ReqTag.pageFetch u])
    | some p =>
      let cands := rank_candidates uj p.1.toList p.2
      let r := try_candidates env cands
      (r.1, ReqTag.pageFetch u :: r.2)

/-- `find_image_from_wikimedia(filename)` (lines 396-406). -/
def find_image_from_wikimedia (env : NetEnv) (quote : String → String)
    (filename : Option String) : Option (PImage × String) × List ReqTag :=
  if ¬ truthyS filename then (none, [])
  else
    let file_url := wikimedia_file_url quote (filename.getD "")
    match env.download_image file_url with
    | some (some img) => (some (img, file_url), [ReqTag.download "wikimedia" file_url])
    | _ => (none, [ReqTag.download "wikimedia" file_url])

/-- `.get(key)` on the prefetched bdbase name→image dict. -/
def dictGetS (m : List (String × String)) (k : String) : Option String :=
  (m.find? (fun kv => kv.1 == k)).map (fun kv => kv.2)

/-- The tail of find_image_from_bdbase once the image url candidate is
settled (lines 419-428): `if not url: return None, None`, then one
download with exceptions treated as failure.  `tr` carries the requests
already issued while finding the url. -/
def bdbase_try_download (env : NetEnv) (url : Option String) (tr : List ReqTag) :
    Option (PImage × String) × List ReqTag :=
  if ¬ truthyS url then (none, tr)
  else
    let u := url.getD ""
    match env.download_image u with
    | some (some img) => (some (img, u), tr ++ [ReqTag.download "bdbase" u])
    | _ => (none, tr ++ [ReqTag.download "bdbase" u])

/-- `find_image_from_bdbase(name, bdbase_map)` (lines 409-428):
dictionary lookup under the normalized key, slug probe when the lookup
came up empty, then the download tail. -/
def find_image_from_bdbase (env : NetEnv) (targs : TextEnv) (name : String)
    (bdbase_map : List (String × String)) : Option (PImage × String) × List ReqTag :=
  let key := (normalize_key targs.nfkd targs.combining targs.lower name.toList).asString
  let url : Option String := if ¬ bdbase_map.isEmpty then dictGetS bdbase_map key else none
  if ¬ truthyS url then
    let slug := (slugify_bdbase targs.nfkd targs.combining targs.lower name.toList).asString
    bdbase_try_download env (env.bdbase_slug_page slug) [ReqTag.bdbaseSlugFetch slug]
  else
    bdbase_try_download env url []

/-- The --prefer choice. -/
inductive Prefer
  | official
  | wikimedia
deriving DecidableEq, Repr

/-- The argparse options that drive one main-loop iteration. -/
structure MainArgs where
  prefer : Prefer
  use_bdbase : Bool
  update_folder_info : Bool
  dry_run : Bool
  size : Nat
deriving Repr

/-- Cache consultation of main (lines 569-573): a present record is used
as is; otherwise resolve_publisher_info runs and its result is stored. -/
def lookup_or_resolve (env : NetEnv) (cache : Cache) (name : String) :
    Info × Cache × List ReqTag :=
  match cacheGet cache name with
  | some info => (info, cache, [])
  | none =>
    let r := resolve_publisher_info env name
    (r.1, cachePut cache name r.1, r.2)

/-- The bdbase description/website augmentation of main (lines 575-587):
only under --update-folder-info with --use-bdbase, fetch details when the
bdbase keys are absent from the record, and read description/website from
the (possibly updated) record.  Returns the record, whether it was
updated (and so re-saved), the requests issued, and the description and
website read. -/
def bdbase_augment (env : NetEnv) (targs : TextEnv) (args : MainArgs)
    (name : String) (info : Info) :
    Info × Bool × List ReqTag × Option String × Option String :=
  if args.update_folder_info ∧ args.use_bdbase then
    let slug := (slugify_bdbase targs.nfkd targs.combining targs.lower name.toList).asString
    let step :=
      if info.bdbase_description = none ∨ info.bdbase_website = none then
        match env.bdbase_details slug with
        | none => (info, false, [ReqTag.bdbaseDetailsFetch slug])
        | some d =>
          ({ info with
              bdbase_description := some d.description
              bdbase_website := some d.website
              bdbase_url := some (some ("https://www.bdbase.fr/editeurs/" ++ slug)) },
            true, [ReqTag.bdbaseDetailsFetch slug])
      else (info, false, [])
    (step.1, step.2.1, step.2.2, step.1.bdbase_description.join, step.1.bdbase_website.join)
  else (info, false, [], none, none)

/-- One `if not image:` guard of the chain (main lines 602-611): when an
image is already in hand it is kept and the alternative source is not
consulted (contributing no requests); otherwise the alternative runs. -/
def chain_step (r : Option (PImage × String) × List ReqTag)
    (next : Option (PImage × String) × List ReqTag) :
    Option (PImage × String) × List ReqTag :=
  match r.1 with
  | some v => (some v, [])
  | none => next

/-- The image acquisition chain of main (lines 597-611): the preferred
source, then bdbase when enabled, then the remaining source, each tried
only while no image has been found. -/
def image_chain (env : NetEnv) (targs : TextEnv)
    (uj : List Char → List Char → List Char) (quote : String → String)
    (args : MainArgs) (bdbase_map : List (String × String)) (name : String)
    (info : Info) : Option (PImage × String) × List ReqTag :=
  match args.prefer with
  | Prefer.official =>
    let r1 := find_image_from_official_site env uj info.official_url
    let r2 := chain_step r1
      (if args.use_bdbase then find_image_from_bdbase env targs name bdbase_map
       else (none, []))
    let r3 := chain_step r2 (find_image_from_wikimedia env quote info.logo_filename)
    (r3.1, r1.2 ++ r2.2 ++ r3.2)
  | Prefer.wikimedia =>
    let r1 := find_image_from_wikimedia env quote info.logo_filename
    let r2 := chain_step r1
      (if args.use_bdbase then find_image_from_bdbase env targs name bdbase_map
       else (none, []))
    let r3 := chain_step r2 (find_image_from_official_site env uj info.official_url)
    (r3.1, r1.2 ++ r2.2 ++ r3.2)

/-- Observable outcome of one main-loop iteration for one entity. -/
structure StepResult where
  status : String
  info : Option Info
  source_url : Option String
  cache : Cache
  saved : Option PImage
  trace : List ReqTag

/-- One iteration of the main loop of fetch_publisher_images.py (lines
557-654) for one entity: the early "exists" path, cache consultation,
optional bdbase augmentation, the deferred "exists" path, the image
chain, and the no_image / dry_run / ok outcomes (make_square + save on
ok). -/
def process_entity (env : NetEnv) (targs : TextEnv)
    (uj : List Char → List Char → List Char) (quote : String → String)
    (args : MainArgs) (bdbase_map : List (String × String)) (cache : Cache)
    (name : String) (image_exists : Bool) : StepResult :=
  if image_exists ∧ ¬ args.update_folder_info then
    ⟨"exists", none, none, cache, none, []⟩
  else
    let lr := lookup_or_resolve env cache name
    let ba := bdbase_augment env targs args name lr.1
    let info := ba.1
    let cache2 := if ba.2.1 then cachePut lr.2.1 name info else lr.2.1
    if image_exists then
      ⟨"exists", some info, none, cache2, none, lr.2.2 ++ ba.2.2.1⟩
    else
      let ic := image_chain env targs uj quote args bdbase_map name info
      match ic.1 with
      | none =>
        ⟨"no_image", some info, none, cache2, none, lr.2.2 ++ ba.2.2.1 ++ ic.2⟩
      | some r =>
        if args.dry_run then
          ⟨"dry_run", some info, some r.2, cache2, none, lr.2.2 ++ ba.2.2.1 ++ ic.2⟩
        else
          ⟨"ok", some info, some r.2, cache2, some (make_square r.1 args.size),
            lr.2.2 ++ ba.2.2.1 ++ ic.2⟩

/-- C7: for every delay range [lo, hi] with lo ≤ hi and every sample the
normal sampler may return, the delay produced by get_random_delay lies
within [lo, hi]. -/
theorem get_random_delay_in_range (normalvariate : ℚ → ℚ → ℚ) (lower upper : ℚ)
    (h : lower ≤ upper) :
    lower ≤ get_random_delay normalvariate lower upper ∧
      get_random_delay normalvariate lower upper ≤ upper := by
  unfold get_random_delay
  exact ⟨le_max_left _ _, max_le h (min_le_left _ _)⟩

/-- Witness for `get_random_delay_in_range`: range [1, 2] with a sampler
that always returns 100. -/
theorem get_random_delay_in_range_witness :
    (1 : ℚ) ≤ 2 ∧
      ((1 : ℚ) ≤ get_random_delay (fun _ _ => 100) 1 2 ∧
        get_random_delay (fun _ _ => 100) 1 2 ≤ 2) :=
  ⟨by norm_num, get_random_delay_in_range (fun _ _ => 100) 1 2 (by norm_num)⟩

/-- C10: the img-tag scoring function always returns an integer in
[-4, 12]. -/
theorem score_image_candidate_bounds (url alt klass img_id : List Char) :
    -4 ≤ score_image_candidate url alt klass img_id ∧
      score_image_candidate url alt klass img_id ≤ 12 := by
  unfold score_image_candidate
  dsimp only
  split <;> split <;> split <;> split <;> split <;> split <;> omega

/-- C3 counterexample: a cache file whose content json.load rejects makes
load_cache propagate the parse error instead of yielding an empty cache. -/
theorem load_cache_malformed_raises :
    load_cache (some (Except.error "Expecting value: line 1 column 1 (char 0)")) =
      Except.error "Expecting value: line 1 column 1 (char 0)" ∧
      ∀ c : Cache,
        load_cache (some (Except.error "Expecting value: line 1 column 1 (char 0)")) ≠
          Except.ok c := by
  refine ⟨rfl, fun c h => ?_⟩
  simp [load_cache] at h

/-- C3 amended: a missing cache file yields an empty cache, a parseable
one yields its content, and a malformed one propagates the JSON parse
error to the caller. -/
theorem load_cache_behaviour :
    load_cache none = Except.ok [] ∧
      (∀ e, load_cache (some (Except.error e)) = Except.error e) ∧
      (∀ v, load_cache (some (Except.ok v)) = Except.ok v) :=
  ⟨rfl, fun _ => rfl, fun _ => rfl⟩

/-- In the retry loop, every attempt index drawn from range(1, attempts)
is below attempts, so the `attempt >= attempts: raise` branch never
fires: the loop either returns a response or falls through to None. -/
theorem request_retry_go_no_raise (dispatch : Nat → DispatchResult) (attempts : Nat)
    (l : List Nat) (count : Nat) (hl : ∀ x ∈ l, x < attempts) :
    (request_retry_go dispatch attempts l count).1 = none ∨
      ∃ r, (request_retry_go dispatch attempts l count).1 = some (Except.ok r) := by
  induction l generalizing count with
  | nil => exact Or.inl rfl
  | cons a rest ih =>
    have ha : a < attempts := hl a (List.mem_cons_self a rest)
    have hrest : ∀ x ∈ rest, x < attempts := fun x hx => hl x (List.mem_cons_of_mem a hx)
    unfold request_retry_go
    cases hd : dispatch a with
    | resp r => exact Or.inr ⟨r, rfl⟩
    | connError =>
      have : ¬ a ≥ attempts := Nat.not_le.mpr ha
      simp only [this, if_false]
      exact ih (count + 1) hrest

/-- C1: the throttled send never performs the configured number of
attempts and never propagates the connection failure.  First conjunct:
for every attempts setting and dispatch behaviour, the wrapped request
either returns a response or returns None — the re-raise is dead code.
Second and third conjuncts evaluate the failing inputs: with
request_attempts = 3 and every dispatch failing with ConnectionError the
code performs only 2 dispatches and returns None, and with
request_attempts = 1 it performs no dispatch at all. -/
theorem session_request_connection_failures :
    (∀ (a : Int) (d : Nat → DispatchResult),
        (session_request a d).1 = none ∨
          ∃ r, (session_request a d).1 = some (Except.ok r)) ∧
      session_request 3 (fun _ => DispatchResult.connError) = (none, 2) ∧
      session_request 1 (fun _ => DispatchResult.connError) = (none, 0) := by
  refine ⟨fun a d => ?_, rfl, rfl⟩
  unfold session_request
  apply request_retry_go_no_raise
  intro x hx
  have := List.mem_range'.mp hx
  omega

/-- The string read off one attribute by the parser branches:
`attrs_dict.get(k) or ""`. -/
def attrStr (ev : TagEvent) (key : List Char) : List Char :=
  (attrsGet ev.attrs key).getD []

/-- A candidate appended by _add_candidate is exactly the candidate built
from the url it was called with, joined against the current base url,
with the score and source kind it was called with. -/
theorem add_candidate_mem (uj : List Char → List Char → List Char)
    (st : ParserState) (url : List Char) (s : Int) (src : String)
    (c : Candidate) (hc : c ∈ (add_candidate uj st url s src).candidates) :
    c ∈ st.candidates ∨ c = ⟨uj st.base_url url, s, src⟩ := by
  unfold add_candidate at hc
  split at hc
  · exact Or.inl hc
  · simp only [List.mem_append, List.mem_singleton] at hc
    exact hc

/-- The per-candidate scoring discipline of handle_starttag: a candidate
added by one tag event is the meta candidate of that event's content
attribute with base score 8, the icon candidate of its href attribute
with base score 6, or the img candidate of its src attribute scored by
score_image_candidate applied to that event's own src, alt, class and id
attributes. -/
theorem handle_starttag_mem (uj : List Char → List Char → List Char)
    (st : ParserState) (ev : TagEvent) (c : Candidate)
    (hc : c ∈ (handle_starttag uj st ev).candidates) :
    c ∈ st.candidates ∨
      c = ⟨uj st.base_url (attrStr ev "content".toList), 8, "meta"⟩ ∨
      c = ⟨uj st.base_url (attrStr ev "href".toList), 6, "icon"⟩ ∨
      c = ⟨uj st.base_url (attrStr ev "src".toList),
            score_image_candidate (attrStr ev "src".toList) (attrStr ev "alt".toList)
              (attrStr ev "class".toList) (attrStr ev "id".toList), "img"⟩ := by
  unfold handle_starttag at hc
  dsimp only at hc
  repeat' split at hc
  all_goals
    first
      | exact Or.inl hc
      | (rcases add_candidate_mem _ _ _ _ _ _ hc with h | h
         · exact Or.inl h
         · first
             | exact Or.inr (Or.inl h)
             | exact Or.inr (Or.inr (Or.inl h))
             | exact Or.inr (Or.inr (Or.inr h)))

/-- Scoring discipline lifted over a fold of handle_starttag: every
candidate not already present comes from one of the folded events, built
from that event's own attributes against the base url current when the
event was handled. -/
theorem foldl_handle_starttag_mem (uj : List Char → List Char → List Char)
    (events : List TagEvent) :
    ∀ (st : ParserState) (c : Candidate),
      c ∈ (events.foldl (handle_starttag uj) st).candidates →
      c ∈ st.candidates ∨
        ∃ ev ∈ events, ∃ base,
          c = ⟨uj base (attrStr ev "content".toList), 8, "meta"⟩ ∨
          c = ⟨uj base (attrStr ev "href".toList), 6, "icon"⟩ ∨
          c = ⟨uj base (attrStr ev "src".toList),
                score_image_candidate (attrStr ev "src".toList) (attrStr ev "alt".toList)
                  (attrStr ev "class".toList) (attrStr ev "id".toList), "img"⟩ := by
  induction events with
  | nil => intro st c hc; exact Or.inl hc
  | cons e rest ih =>
    intro st c hc
    rcases ih (handle_starttag uj st e) c hc with h | ⟨ev, hev, base, hcase⟩
    · rcases handle_starttag_mem uj st e c h with h2 | h2
      · exact Or.inl h2
      · exact Or.inr ⟨e, List.mem_cons_self e rest, st.base_url, h2⟩
    · exact Or.inr ⟨ev, List.mem_cons_of_mem e hev, base, hcase⟩

/-- Scoring discipline over the whole parse of a page: every extracted
candidate is a meta, icon or img candidate of one of the page's tag
events, scored from that event's own attributes. -/
theorem parse_image_tags_mem (uj : List Char → List Char → List Char)
    (resp_url : List Char) (events : List TagEvent) (c : Candidate)
    (hc : c ∈ (parse_image_tags uj resp_url events).candidates) :
    ∃ ev ∈ events, ∃ base,
      c = ⟨uj base (attrStr ev "content".toList), 8, "meta"⟩ ∨
      c = ⟨uj base (attrStr ev "href".toList), 6, "icon"⟩ ∨
      c = ⟨uj base (attrStr ev "src".toList),
            score_image_candidate (attrStr ev "src".toList) (attrStr ev "alt".toList)
              (attrStr ev "class".toList) (attrStr ev "id".toList), "img"⟩ := by
  unfold parse_image_tags at hc
  rcases foldl_handle_starttag_mem uj events ⟨resp_url, []⟩ c hc with h | h
  · simp at h
  · exact h

/-- C5: the score of every extracted image candidate follows the fixed
discipline, applied to the candidate's own originating tag: an img
candidate carries score_image_candidate of that tag's own url, alt,
class and id attributes — and that heuristic is exactly the additive sum
of the +6 logo / +3 brand / +1 header-banner / -2 sprite-icon / +2
raster / -2 svg terms — while meta (og:image / twitter image) candidates
carry the fixed base score 8 and icon-link candidates the fixed base
score 6, bypassing the text heuristic. -/
theorem candidate_scores_follow_heuristic :
    (∀ url alt klass img_id,
        score_image_candidate url alt klass img_id =
          spec_additive_score url alt klass img_id) ∧
      ∀ (uj : List Char → List Char → List Char) (resp_url : List Char)
        (events : List TagEvent) (c : Candidate),
        c ∈ (parse_image_tags uj resp_url events).candidates →
          ∃ ev ∈ events, ∃ base,
            c = ⟨uj base (attrStr ev "content".toList), 8, "meta"⟩ ∨
            c = ⟨uj base (attrStr ev "href".toList), 6, "icon"⟩ ∨
            c = ⟨uj base (attrStr ev "src".toList),
                  score_image_candidate (attrStr ev "src".toList)
                    (attrStr ev "alt".toList) (attrStr ev "class".toList)
                    (attrStr ev "id".toList), "img"⟩ := by
  constructor
  · intro url alt klass img_id
    unfold score_image_candidate spec_additive_score
    dsimp only
    split <;> split <;> split <;> split <;> split <;> split <;> omega
  · exact parse_image_tags_mem

/-- Witness for `candidate_scores_follow_heuristic`: a one-tag page whose
og:image meta tag yields the meta candidate of that tag's content
attribute with score 8. -/
theorem candidate_scores_follow_heuristic_witness :
    (⟨"og.png".toList, 8, "meta"⟩ : Candidate) ∈
        (parse_image_tags (fun _ u => u) "http://acme.example".toList
          [⟨"meta".toList,
            [("property".toList, some "og:image".toList),
             ("content".toList, some "og.png".toList)]⟩]).candidates ∧
      ∃ ev ∈ [(⟨"meta".toList,
            [("property".toList, some "og:image".toList),
             ("content".toList, some "og.png".toList)]⟩ : TagEvent)], ∃ base,
        (⟨"og.png".toList, 8, "meta"⟩ : Candidate) =
            ⟨(fun _ u => u : List Char → List Char → List Char) base
              (attrStr ev "content".toList), 8, "meta"⟩ ∨
          (⟨"og.png".toList, 8, "meta"⟩ : Candidate) =
            ⟨(fun _ u => u : List Char → List Char → List Char) base
              (attrStr ev "href".toList), 6, "icon"⟩ ∨
          (⟨"og.png".toList, 8, "meta"⟩ : Candidate) =
            ⟨(fun _ u => u : List Char → List Char → List Char) base
              (attrStr ev "src".toList),
              score_image_candidate (attrStr ev "src".toList)
                (attrStr ev "alt".toList) (attrStr ev "class".toList)
                (attrStr ev "id".toList), "img"⟩ :=
  ⟨by decide,
    candidate_scores_follow_heuristic.2 (fun _ u => u) "http://acme.example".toList
      [⟨"meta".toList,
        [("property".toList, some "og:image".toList),
         ("content".toList, some "og.png".toList)]⟩]
      ⟨"og.png".toList, 8, "meta"⟩ (by decide)⟩

/-- C6: candidate ranking is deterministic and order-stable — on any
fixed tag set it returns the same list on repeated calls, that list is a
permutation of the extracted candidates sorted by descending score, and
candidates of equal score keep their first-seen (document) order. -/
theorem rank_candidates_sorted_stable (uj : List Char → List Char → List Char)
    (resp_url : List Char) (events : List TagEvent) :
    rank_candidates uj resp_url events = rank_candidates uj resp_url events ∧
      (rank_candidates uj resp_url events).Pairwise (fun a b => b.score ≤ a.score) ∧
      (rank_candidates uj resp_url events).Perm
        (parse_image_tags uj resp_url events).candidates ∧
      ∀ a b : Candidate, a.score = b.score →
        [a, b].Sublist (parse_image_tags uj resp_url events).candidates →
        [a, b].Sublist (rank_candidates uj resp_url events) := by
  have htrans : ∀ a b c : Candidate,
      (decide (b.score ≤ a.score)) = true → (decide (c.score ≤ b.score)) = true →
      (decide (c.score ≤ a.score)) = true := by
    intro a b c h1 h2
    simp only [decide_eq_true_eq] at h1 h2 ⊢
    exact le_trans h2 h1
  have htotal : ∀ a b : Candidate,
      ((decide (b.score ≤ a.score)) || (decide (a.score ≤ b.score))) = true := by
    intro a b
    simp only [Bool.or_eq_true, decide_eq_true_eq]
    exact le_total b.score a.score
  refine ⟨rfl, ?_, ?_, ?_⟩
  · have := @List.sorted_mergeSort Candidate
      (fun a b : Candidate => decide (b.score ≤ a.score))
      htrans htotal (parse_image_tags uj resp_url events).candidates
    unfold rank_candidates
    exact this.imp (fun h => by simpa using h)
  · exact List.mergeSort_perm _ _
  · intro a b hab hsub
    unfold rank_candidates
    exact List.pair_sublist_mergeSort htrans htotal (by simp [hab]) hsub

/-- Witness for `rank_candidates_sorted_stable`: two img candidates with
equal score 2 keep their document order through ranking. -/
theorem rank_candidates_sorted_stable_witness :
    ((⟨"a.png".toList, 2, "img"⟩ : Candidate).score =
        (⟨"b.png".toList, 2, "img"⟩ : Candidate).score) ∧
      [(⟨"a.png".toList, 2, "img"⟩ : Candidate), ⟨"b.png".toList, 2, "img"⟩].Sublist
        (rank_candidates (fun _ u => u) "http://x".toList
          [⟨"img".toList, [("src".toList, some "a.png".toList)]⟩,
           ⟨"img".toList, [("src".toList, some "b.png".toList)]⟩]) :=
  ⟨by decide,
    (rank_candidates_sorted_stable (fun _ u => u) "http://x".toList
      [⟨"img".toList, [("src".toList, some "a.png".toList)]⟩,
       ⟨"img".toList, [("src".toList, some "b.png".toList)]⟩]).2.2.2
      ⟨"a.png".toList, 2, "img"⟩ ⟨"b.png".toList, 2, "img"⟩ (by decide) (by decide)⟩

/-- C8: for every decodable image with non-degenerate dimensions and
positive target size, make_square returns an exactly size × size image in
mode RGB; an alpha-mode input (RGBA/LA) is flattened onto an opaque
white background, any other non-RGB mode is converted to an opaque
3-channel representation, and the flattened/converted image is
center-cropped to its smaller dimension before resampling. -/
theorem make_square_normalizes (image : PImage) (size : Nat)
    (hsize : 0 < size) (hw : 0 < image.width) (hh : 0 < image.height) :
    (make_square image size).width = size ∧
      (make_square image size).height = size ∧
      (make_square image size).mode = PMode.RGB ∧
      (make_square image size =
        (let flat :=
          if image.mode = PMode.RGBA ∨ image.mode = PMode.LA then
            pil_paste_mask (pil_new_rgb image.width image.height (255, 255, 255))
              image (pil_alpha_band image)
          else if image.mode ≠ PMode.RGB then pil_convert_rgb image
          else image
         let m := min image.width image.height
         let left := (image.width - m) / 2
         let top := (image.height - m) / 2
         pil_resize (pil_crop flat left top (left + m) (top + m)) size size)) ∧
      ((image.mode = PMode.RGBA ∨ image.mode = PMode.LA) →
        ∀ x y,
          (let flat :=
            pil_paste_mask (pil_new_rgb image.width image.height (255, 255, 255))
              image (pil_alpha_band image)
           ((image.px x y).2.2.2 = 0 → flat.px x y = (255, 255, 255, 255)) ∧
             ((image.px x y).2.2.2 = 255 →
               flat.px x y =
                 ((image.px x y).1, (image.px x y).2.1, (image.px x y).2.2.1, 255)) ∧
             (flat.px x y).2.2.2 = 255)) ∧
      (image.mode ≠ PMode.RGBA → image.mode ≠ PMode.LA →
        (pil_convert_rgb image).mode = PMode.RGB ∧
          ∀ x y, ((pil_convert_rgb image).px x y).2.2.2 = 255) := by
  refine ⟨rfl, rfl, ?_, ?_, ?_, ?_⟩
  · cases h : image.mode <;>
      simp [make_square, pil_resize, pil_crop, pil_paste_mask, pil_convert_rgb,
        pil_new_rgb, h]
  · cases h : image.mode <;>
      simp [make_square, pil_resize, pil_crop, pil_paste_mask, pil_convert_rgb,
        pil_new_rgb, pil_alpha_band, h]
  · intro halpha x y
    refine ⟨?_, ?_, ?_⟩
    · intro h0
      simp [pil_paste_mask, pil_new_rgb, pil_alpha_band, h0]
    · intro h255
      simp [pil_paste_mask, pil_new_rgb, pil_alpha_band, h255, Nat.mul_div_cancel]
    · simp [pil_paste_mask, pil_new_rgb, pil_alpha_band]
  · intro h1 h2
    exact ⟨rfl, fun x y => rfl⟩

/-- A concrete 4×2 RGBA image, fully transparent. -/
def testImage : PImage :=
  ⟨PMode.RGBA, 4, 2, fun _ _ => (10, 20, 30, 0)⟩

/-- Witness for `make_square_normalizes`: the concrete 4×2 RGBA image at
target size 3. -/
theorem make_square_normalizes_witness :
    0 < 3 ∧ 0 < testImage.width ∧ 0 < testImage.height ∧
      (make_square testImage 3).width = 3 ∧ (make_square testImage 3).height = 3 ∧
      (make_square testImage 3).mode = PMode.RGB :=
  ⟨by decide, by decide, by decide,
    (make_square_normalizes testImage 3 (by decide) (by decide) (by decide)).1,
    (make_square_normalizes testImage 3 (by decide) (by decide) (by decide)).2.1,
    (make_square_normalizes testImage 3 (by decide) (by decide) (by decide)).2.2.1⟩

/-- Characters of a normalized key: lowercase alphanumerics and the
single separator space. -/
def keyOrSpace (c : Char) : Bool :=
  isKeyChar c || c = ' '

theorem isKeyChar_not_space (c : Char) (h : isKeyChar c = true) : pyIsSpace c = false := by
  simp only [isKeyChar, decide_eq_true_eq] at h
  simp only [pyIsSpace, decide_eq_false_iff_not, not_or]
  rcases h with ⟨h1, h2⟩ | ⟨h1, h2⟩ <;>
    refine ⟨?_, ?_, ?_, ?_, ?_, ?_⟩ <;>
    · intro he
      subst he
      simp [Char.le_def] at h1 h2

theorem keyOrSpace_not_quote (c : Char) (h : keyOrSpace c = true) :
    isQuoteChar c = false := by
  simp only [keyOrSpace, Bool.or_eq_true, decide_eq_true_eq] at h
  simp only [isQuoteChar, decide_eq_false_iff_not, not_or]
  rcases h with h | he
  · simp only [isKeyChar, decide_eq_true_eq] at h
    rcases h with ⟨h1, h2⟩ | ⟨h1, h2⟩ <;>
      refine ⟨?_, ?_, ?_⟩ <;>
      · intro he
        subst he
        simp [Char.le_def] at h1 h2
  · subst he
    refine ⟨by decide, by decide, by decide⟩

theorem keyOrSpace_not_amp (c : Char) (h : keyOrSpace c = true) : c ≠ '&' := by
  simp only [keyOrSpace, Bool.or_eq_true, decide_eq_true_eq] at h
  rcases h with h | he
  · simp only [isKeyChar, decide_eq_true_eq] at h
    rcases h with ⟨h1, h2⟩ | ⟨h1, h2⟩ <;>
    · intro he
      subst he
      simp [Char.le_def] at h1 h2
  · subst he
    decide

theorem keyOrSpace_space_iff (c : Char) (h : keyOrSpace c = true) :
    pyIsSpace c = (c = ' ') := by
  simp only [keyOrSpace, Bool.or_eq_true, decide_eq_true_eq] at h
  rcases h with h | he
  · rw [isKeyChar_not_space c h]
    have : c ≠ ' ' := by
      have := isKeyChar_not_space c h
      intro he
      subst he
      simp [pyIsSpace] at this
    simp [this]
  · subst he
    decide

theorem subRunsWith_mem (keep : Char → Bool) (rep : Char) :
    ∀ (l : List Char) (flag : Bool) (c : Char),
      c ∈ subRunsWith keep rep flag l → keep c = true ∨ c = rep := by
  intro l
  induction l with
  | nil => intro flag c hc; simp [subRunsWith] at hc
  | cons a as ih =>
    intro flag c hc
    unfold subRunsWith at hc
    by_cases ha : keep a = true
    · simp only [ha, if_true] at hc
      rcases List.mem_cons.mp hc with h | h
      · subst h; exact Or.inl ha
      · exact ih false c h
    · simp only [ha, if_false] at hc
      cases flag with
      | true => simpa using ih true c (by simpa using hc)
      | false =>
        simp only [Bool.false_eq_true, if_false] at hc
        rcases List.mem_cons.mp hc with h | h
        · subst h; exact Or.inr rfl
        · exact ih true c h

theorem subRunsWith_key_chain :
    ∀ l : List Char,
      ((subRunsWith isKeyChar ' ' true l).head? ≠ some ' ') ∧
        (subRunsWith isKeyChar ' ' true l).Chain' (fun a b => ¬(a = ' ' ∧ b = ' ')) ∧
        (subRunsWith isKeyChar ' ' false l).Chain' (fun a b => ¬(a = ' ' ∧ b = ' ')) := by
  intro l
  induction l with
  | nil => exact ⟨by simp [subRunsWith], by simp [subRunsWith], by simp [subRunsWith]⟩
  | cons a as ih =>
    by_cases ha : isKeyChar a = true
    · have hane : a ≠ ' ' := by
        have := isKeyChar_not_space a ha
        intro he; subst he; simp [pyIsSpace] at this
      have hchain : (a :: subRunsWith isKeyChar ' ' false as).Chain'
          (fun a b => ¬(a = ' ' ∧ b = ' ')) := by
        refine List.chain'_cons'.mpr ⟨?_, ih.2.2⟩
        intro y _hy
        exact fun hcon => hane hcon.1
      refine ⟨?_, ?_, ?_⟩
      · unfold subRunsWith
        simp only [ha, if_true]
        simp [hane]
      · unfold subRunsWith
        simp only [ha, if_true]
        exact hchain
      · unfold subRunsWith
        simp only [ha, if_true]
        exact hchain
    · refine ⟨?_, ?_, ?_⟩
      · unfold subRunsWith
        simp only [ha, if_false]
        exact ih.1
      · unfold subRunsWith
        simp only [ha, if_false]
        exact ih.2.1
      · unfold subRunsWith
        simp only [ha, if_false]
        refine List.chain'_cons'.mpr ⟨?_, ih.2.1⟩
        intro y hy
        intro hcon
        exact ih.1 (by rw [hy, hcon.2])

theorem pyStrip_eq_rdrop (l : List Char) :
    pyStrip l = List.rdropWhile pyIsSpace (l.dropWhile pyIsSpace) := rfl

theorem pyStrip_subset (l : List Char) : pyStrip l ⊆ l := by
  rw [pyStrip_eq_rdrop]
  intro c hc
  exact (List.dropWhile_suffix pyIsSpace).subset
    (List.IsPrefix.subset ( List.rdropWhile_prefix pyIsSpace (l.dropWhile pyIsSpace)) hc)

theorem pyStrip_chain (l : List Char) (R : Char → Char → Prop)
    (h : l.Chain' R) : (pyStrip l).Chain' R := by
  rw [pyStrip_eq_rdrop]
  exact List.Chain'.prefix (List.Chain'.suffix h (List.dropWhile_suffix pyIsSpace))
    ( List.rdropWhile_prefix pyIsSpace (l.dropWhile pyIsSpace))

theorem pyStrip_head (l : List Char) : (pyStrip l).head? ≠ some ' ' := by
  rw [pyStrip_eq_rdrop]
  intro hh
  obtain ⟨s, hs⟩ := List.rdropWhile_prefix pyIsSpace (l.dropWhile pyIsSpace)
  rcases ht : List.rdropWhile pyIsSpace (l.dropWhile pyIsSpace) with _ | ⟨a, ts⟩
  · rw [ht] at hh
    simp at hh
  · rw [ht] at hh hs
    have ha : a = ' ' := by simpa using hh
    subst ha
    have hne : l.dropWhile pyIsSpace ≠ [] := by
      rw [← hs]; simp
    have hnot := List.head_dropWhile_not pyIsSpace l hne
    have hq : (l.dropWhile pyIsSpace).head? = some ' ' := by
      rw [← hs]
      simp
    rw [List.head?_eq_head hne] at hq
    have hhead : (l.dropWhile pyIsSpace).head hne = ' ' := Option.some_injective _ hq
    rw [hhead] at hnot
    simp [pyIsSpace] at hnot

theorem pyStrip_last (l : List Char) : (pyStrip l).getLast? ≠ some ' ' := by
  rw [pyStrip_eq_rdrop]
  intro hh
  have hne : List.rdropWhile pyIsSpace (l.dropWhile pyIsSpace) ≠ [] := by
    intro hcon
    rw [hcon] at hh
    simp at hh
  have hlast := List.rdropWhile_last_not pyIsSpace (l.dropWhile pyIsSpace) hne
  rw [List.getLast?_eq_getLast _ hne] at hh
  have : (List.rdropWhile pyIsSpace (l.dropWhile pyIsSpace)).getLast hne = ' ' :=
    Option.some_injective _ hh
  rw [this] at hlast
  simp [pyIsSpace] at hlast

theorem subRunsWith_id (keep : Char → Bool)
    (hkeep : ∀ c, keyOrSpace c = true → (keep c = true ↔ c ≠ ' ')) :
    ∀ l : List Char, (∀ c ∈ l, keyOrSpace c = true) →
      l.Chain' (fun a b => ¬(a = ' ' ∧ b = ' ')) →
      subRunsWith keep ' ' false l = l ∧
        (l.head? ≠ some ' ' → subRunsWith keep ' ' true l = l) := by
  intro l
  induction l with
  | nil => exact fun _ _ => ⟨rfl, fun _ => rfl⟩
  | cons a as ih =>
    intro hmem hchain
    have hka : keyOrSpace a = true := hmem a (List.mem_cons_self a as)
    have hrest : ∀ c ∈ as, keyOrSpace c = true :=
      fun c hc => hmem c (List.mem_cons_of_mem a hc)
    have hcc := List.chain'_cons'.mp hchain
    by_cases hsp : a = ' '
    · have hko : keep a = false := by
        rcases h : keep a with _ | _
        · rfl
        · exact absurd hsp ((hkeep a hka).mp h)
      have hashead : as.head? ≠ some ' ' := by
        intro hcon
        exact hcc.1 ' ' hcon ⟨hsp, rfl⟩
      have htr := (ih hrest hcc.2).2 hashead
      constructor
      · unfold subRunsWith
        simp only [hko, Bool.false_eq_true, if_false]
        rw [htr, hsp]
      · intro hhead
        refine absurd ?_ hhead
        rw [hsp]
        rfl
    · have hko : keep a = true := (hkeep a hka).mpr hsp
      have hfa := (ih hrest hcc.2).1
      constructor
      · unfold subRunsWith
        simp only [hko, if_true]
        rw [hfa]
      · intro _
        unfold subRunsWith
        simp only [hko, if_true]
        rw [hfa]

theorem replaceAmp_id (rep : List Char) (l : List Char)
    (hmem : ∀ c ∈ l, keyOrSpace c = true) : replaceAmp rep l = l := by
  induction l with
  | nil => rfl
  | cons a as ih =>
    have ha := keyOrSpace_not_amp a (hmem a (List.mem_cons_self a as))
    unfold replaceAmp
    simp only [List.foldr_cons, ha, if_false]
    have := ih (fun c hc => hmem c (List.mem_cons_of_mem a hc))
    unfold replaceAmp at this
    rw [this]

theorem pyStrip_id (l : List Char) (hmem : ∀ c ∈ l, keyOrSpace c = true)
    (hh : l.head? ≠ some ' ') (hl : l.getLast? ≠ some ' ') : pyStrip l = l := by
  rw [pyStrip_eq_rdrop]
  have hdrop : l.dropWhile pyIsSpace = l := by
    rw [List.dropWhile_eq_self_iff]
    intro hlen
    cases l with
    | nil => simp at hlen
    | cons a as =>
      have ha : a ≠ ' ' := by
        intro hcon
        exact hh (by rw [hcon]; rfl)
      have := keyOrSpace_space_iff a (hmem a (List.mem_cons_self a as))
      simp only [List.get]
      rw [this]
      simp [ha]
  rw [hdrop, List.rdropWhile_eq_self_iff]
  intro hne
  have hmemlast := List.getLast_mem hne
  have hlast : l.getLast hne ≠ ' ' := by
    intro hcon
    exact hl (by rw [List.getLast?_eq_getLast l hne, hcon])
  rw [keyOrSpace_space_iff _ (hmem _ hmemlast)]
  simp [hlast]

/-- Well-formedness of a normalized key: only lowercase ASCII
alphanumerics and spaces, no leading or trailing space, no two adjacent
spaces. -/
def wfKey (l : List Char) : Prop :=
  (∀ c ∈ l, keyOrSpace c = true) ∧ l.head? ≠ some ' ' ∧ l.getLast? ≠ some ' ' ∧
    l.Chain' (fun a b => ¬(a = ' ' ∧ b = ' '))

theorem whitespace_keep_iff (c : Char) (h : keyOrSpace c = true) :
    ((fun c => ¬ pyIsSpace c : Char → Bool) c = true ↔ c ≠ ' ') := by
  have h2 := keyOrSpace_space_iff c h
  simp only [decide_eq_true_eq]
  rw [h2]

theorem key_keep_iff (c : Char) (h : keyOrSpace c = true) :
    (isKeyChar c = true ↔ c ≠ ' ') := by
  constructor
  · intro hk hcon
    have := isKeyChar_not_space c hk
    rw [hcon] at this
    simp [pyIsSpace] at this
  · intro hne
    simp only [keyOrSpace, Bool.or_eq_true, decide_eq_true_eq] at h
    rcases h with h | h
    · exact h
    · exact absurd h hne

theorem normalize_key_wf (nfkd : List Char → List Char) (combining : Char → Bool)
    (lower : List Char → List Char) (name : List Char) :
    wfKey (normalize_key nfkd combining lower name) := by
  unfold normalize_key
  dsimp only
  set u := (replaceAmp "and".toList
    (lower ((nfkd name).filter (fun c => ¬ combining c)))).filter
      (fun c => ¬ isQuoteChar c) with hu
  set s := subRunsWith isKeyChar ' ' false u with hs
  set t := pyStrip s with ht
  have hsmem : ∀ c ∈ s, keyOrSpace c = true := by
    intro c hc
    rcases subRunsWith_mem isKeyChar ' ' u false c hc with h | h
    · simp [keyOrSpace, h]
    · simp [keyOrSpace, h]
  have hschain := (subRunsWith_key_chain u).2.2
  have htmem : ∀ c ∈ t, keyOrSpace c = true := fun c hc => hsmem c (pyStrip_subset s hc)
  have htchain := pyStrip_chain s _ hschain
  have hthead := pyStrip_head s
  have htlast := pyStrip_last s
  have hcoll := (subRunsWith_id (fun c => ¬ pyIsSpace c) whitespace_keep_iff t
    htmem htchain).1
  rw [hcoll]
  exact ⟨htmem, hthead, htlast, htchain⟩

/-- C9: normalize_key is idempotent and always produces a well-formed
key — only lowercase ASCII alphanumerics separated by single interior
spaces, with no leading or trailing space — provided the Unicode
primitives (NFKD, combining, lower) act as the identity on that
already-normalized alphabet, which the real Unicode tables do. -/
theorem normalize_key_idempotent (nfkd : List Char → List Char)
    (combining : Char → Bool) (lower : List Char → List Char)
    (hnfkd : ∀ l, (∀ c ∈ l, keyOrSpace c = true) → nfkd l = l)
    (hcomb : ∀ c, keyOrSpace c = true → combining c = false)
    (hlower : ∀ l, (∀ c ∈ l, keyOrSpace c = true) → lower l = l)
    (name : List Char) :
    wfKey (normalize_key nfkd combining lower name) ∧
      normalize_key nfkd combining lower (normalize_key nfkd combining lower name) =
        normalize_key nfkd combining lower name := by
  refine ⟨normalize_key_wf nfkd combining lower name, ?_⟩
  obtain ⟨hmem, hhead, hlast, hchain⟩ := normalize_key_wf nfkd combining lower name
  set k := normalize_key nfkd combining lower name with hk
  show normalize_key nfkd combining lower k = k
  unfold normalize_key
  dsimp only
  rw [hnfkd k hmem]
  have hfilter1 : k.filter (fun c => ¬ combining c) = k := by
    rw [List.filter_eq_self]
    intro c hc
    simp [hcomb c (hmem c hc)]
  rw [hfilter1, hlower k hmem, replaceAmp_id _ k hmem]
  have hfilter2 : k.filter (fun c => ¬ isQuoteChar c) = k := by
    rw [List.filter_eq_self]
    intro c hc
    simp [keyOrSpace_not_quote c (hmem c hc)]
  rw [hfilter2]
  rw [(subRunsWith_id isKeyChar key_keep_iff k hmem hchain).1]
  rw [pyStrip_id k hmem hhead hlast]
  exact (subRunsWith_id (fun c => ¬ pyIsSpace c) whitespace_keep_iff k hmem hchain).1

/-- Witness for `normalize_key_idempotent`: identity Unicode primitives
on the concrete name "Hello -- World & Co!". -/
theorem normalize_key_idempotent_witness :
    (∀ l : List Char, (∀ c ∈ l, keyOrSpace c = true) → id l = l) ∧
      (∀ c : Char, keyOrSpace c = true → (fun _ : Char => false) c = false) ∧
      (∀ l : List Char, (∀ c ∈ l, keyOrSpace c = true) → id l = l) ∧
      (wfKey (normalize_key id (fun _ => false) id "Hello -- World & Co!".toList) ∧
        normalize_key id (fun _ => false) id
            (normalize_key id (fun _ => false) id "Hello -- World & Co!".toList) =
          normalize_key id (fun _ => false) id "Hello -- World & Co!".toList) :=
  ⟨fun _ _ => rfl, fun _ _ => rfl, fun _ _ => rfl,
    normalize_key_idempotent id (fun _ => false) id
      (fun _ _ => rfl) (fun _ _ => rfl) (fun _ _ => rfl)
      "Hello -- World & Co!".toList⟩

theorem wikiApi_not_wikimedia (t : ReqTag) (h : t.isWikiApi = true) :
    t.isWikimediaDownload = false := by
  cases t <;> simp_all [ReqTag.isWikiApi, ReqTag.isWikimediaDownload]

theorem resolve_from_title_trace (env : NetEnv) (title : Option String)
    (lang : String) (tr : List ReqTag) (htr : ∀ x ∈ tr, x.isWikiApi = true) :
    ∀ x ∈ (resolve_from_title env title lang tr).2, x.isWikiApi = true := by
  unfold resolve_from_title
  dsimp only
  split
  · exact htr
  · split
    · intro x hx
      simp only [List.mem_append, List.mem_singleton] at hx
      rcases hx with hx | hx
      · exact htr x hx
      · subst hx; rfl
    · intro x hx
      simp only [List.mem_append, List.mem_singleton] at hx
      rcases hx with (hx | hx) | hx
      · exact htr x hx
      · subst hx; rfl
      · subst hx; rfl

theorem resolve_publisher_info_trace (env : NetEnv) (name : String) :
    ∀ x ∈ (resolve_publisher_info env name).2, x.isWikiApi = true := by
  unfold resolve_publisher_info
  dsimp only
  split <;>
  · apply resolve_from_title_trace
    intro x hx
    simp only [List.mem_cons, List.mem_singleton, List.not_mem_nil, or_false] at hx
    rcases hx with hx | hx <;> (try subst hx) <;> simp [ReqTag.isWikiApi]

theorem try_candidates_trace (env : NetEnv) (l : List Candidate) :
    ∀ x ∈ (try_candidates env l).2,
      x.isWikiApi = false ∧ x.isWikimediaDownload = false := by
  induction l with
  | nil => intro x hx; simp [try_candidates] at hx
  | cons c rest ih =>
    intro x hx
    unfold try_candidates at hx
    dsimp only at hx
    rcases hd : env.download_image c.url.asString with _ | img
    · rw [hd] at hx
      simp only [List.mem_cons] at hx
      rcases hx with hx | hx
      · subst hx; exact ⟨rfl, rfl⟩
      · exact ih x hx
    · rcases img with _ | i
      · rw [hd] at hx
        simp only [List.mem_cons] at hx
        rcases hx with hx | hx
        · subst hx; exact ⟨rfl, rfl⟩
        · exact ih x hx
      · rw [hd] at hx
        simp only [List.mem_singleton] at hx
        subst hx
        exact ⟨rfl, rfl⟩

theorem find_official_trace (env : NetEnv)
    (uj : List Char → List Char → List Char) (url : Option String) :
    ∀ x ∈ (find_image_from_official_site env uj url).2,
      x.isWikiApi = false ∧ x.isWikimediaDownload = false := by
  unfold find_image_from_official_site
  dsimp only
  split
  · intro x hx; simp at hx
  · split
    · intro x hx
      simp only [List.mem_singleton] at hx
      subst hx
      exact ⟨rfl, rfl⟩
    · intro x hx
      simp only [List.mem_cons] at hx
      rcases hx with hx | hx
      · subst hx; exact ⟨rfl, rfl⟩
      · exact try_candidates_trace env _ x hx

theorem find_wikimedia_trace (env : NetEnv) (quote : String → String)
    (filename : Option String) :
    ∀ x ∈ (find_image_from_wikimedia env quote filename).2, x.isWikiApi = false := by
  unfold find_image_from_wikimedia
  dsimp only
  split
  · intro x hx; simp at hx
  · split <;>
    · intro x hx
      simp only [List.mem_singleton] at hx
      subst hx
      rfl

theorem bdbase_try_download_trace (env : NetEnv) (url : Option String)
    (tr : List ReqTag)
    (htr : ∀ x ∈ tr, x.isWikiApi = false ∧ x.isWikimediaDownload = false) :
    ∀ x ∈ (bdbase_try_download env url tr).2,
      x.isWikiApi = false ∧ x.isWikimediaDownload = false := by
  unfold bdbase_try_download
  dsimp only
  split
  · exact htr
  · split <;>
    · intro x hx
      simp only [List.mem_append, List.mem_singleton] at hx
      rcases hx with hx | hx
      · exact htr x hx
      · subst hx; exact ⟨rfl, rfl⟩

theorem find_bdbase_trace (env : NetEnv) (targs : TextEnv) (name : String)
    (bdbase_map : List (String × String)) :
    ∀ x ∈ (find_image_from_bdbase env targs name bdbase_map).2,
      x.isWikiApi = false ∧ x.isWikimediaDownload = false := by
  unfold find_image_from_bdbase
  dsimp only
  repeat' split
  all_goals
    apply bdbase_try_download_trace
    intro x hx
    first
      | (simp only [List.mem_singleton] at hx
         subst hx
         exact ⟨rfl, rfl⟩)
      | simp at hx

theorem chain_step_trace (r : Option (PImage × String) × List ReqTag)
    (next : Option (PImage × String) × List ReqTag) (P : ReqTag → Prop)
    (hnext : ∀ x ∈ next.2, P x) :
    ∀ x ∈ (chain_step r next).2, P x := by
  unfold chain_step
  rcases r with ⟨r1, tr⟩
  rcases r1 with _ | v
  · exact hnext
  · intro x hx; simp at hx

theorem chain_step_some (r : Option (PImage × String) × List ReqTag)
    (next : Option (PImage × String) × List ReqTag) (v : PImage × String)
    (h : r.1 = some v) : chain_step r next = (some v, []) := by
  unfold chain_step
  rw [h]

theorem image_chain_trace (env : NetEnv) (targs : TextEnv)
    (uj : List Char → List Char → List Char) (quote : String → String)
    (args : MainArgs) (bdbase_map : List (String × String)) (name : String)
    (info : Info) :
    ∀ x ∈ (image_chain env targs uj quote args bdbase_map name info).2,
      x.isWikiApi = false := by
  unfold image_chain
  rcases args.prefer <;>
  · dsimp only
    intro x hx
    simp only [List.mem_append] at hx
    rcases hx with (hx | hx) | hx
    · first
        | exact (find_official_trace env uj info.official_url x hx).1
        | exact find_wikimedia_trace env quote info.logo_filename x hx
    · refine chain_step_trace _ _ (fun t => t.isWikiApi = false) ?_ x hx
      intro y hy
      split at hy
      · exact (find_bdbase_trace env targs name bdbase_map y hy).1
      · simp at hy
    · refine chain_step_trace _ _ (fun t => t.isWikiApi = false) ?_ x hx
      first
        | exact fun y hy => find_wikimedia_trace env quote info.logo_filename y hy
        | exact fun y hy => (find_official_trace env uj info.official_url y hy).1

theorem lookup_or_resolve_cached (env : NetEnv) (cache : Cache) (name : String)
    (info : Info) (h : cacheGet cache name = some info) :
    lookup_or_resolve env cache name = (info, cache, []) := by
  unfold lookup_or_resolve
  rw [h]

theorem lookup_or_resolve_trace (env : NetEnv) (cache : Cache) (name : String) :
    ∀ x ∈ (lookup_or_resolve env cache name).2.2, x.isWikiApi = true := by
  unfold lookup_or_resolve
  rcases h : cacheGet cache name with _ | info
  · dsimp only
    exact resolve_publisher_info_trace env name
  · intro x hx
    simp at hx

theorem bdbase_augment_skip (env : NetEnv) (targs : TextEnv) (args : MainArgs)
    (name : String) (info : Info)
    (h : ¬ (args.update_folder_info = true ∧ args.use_bdbase = true)) :
    bdbase_augment env targs args name info = (info, false, [], none, none) := by
  unfold bdbase_augment
  rw [if_neg h]

theorem bdbase_augment_official_url (env : NetEnv) (targs : TextEnv)
    (args : MainArgs) (name : String) (info : Info) :
    (bdbase_augment env targs args name info).1.official_url = info.official_url := by
  unfold bdbase_augment
  dsimp only
  repeat' split
  all_goals rfl

theorem bdbase_augment_trace (env : NetEnv) (targs : TextEnv) (args : MainArgs)
    (name : String) (info : Info) :
    ∀ x ∈ (bdbase_augment env targs args name info).2.2.1,
      x.isWikiApi = false ∧ x.isWikimediaDownload = false := by
  unfold bdbase_augment
  dsimp only
  repeat' split
  all_goals
    intro x hx
    first
      | (simp only [List.mem_singleton] at hx
         subst hx
         exact ⟨rfl, rfl⟩)
      | simp at hx

theorem image_chain_official (env : NetEnv) (targs : TextEnv)
    (uj : List Char → List Char → List Char) (quote : String → String)
    (args : MainArgs) (bd : List (String × String)) (name : String)
    (info : Info) (img : PImage) (u : String)
    (hp : args.prefer = Prefer.official)
    (hoff : (find_image_from_official_site env uj info.official_url).1 = some (img, u)) :
    image_chain env targs uj quote args bd name info =
      (some (img, u), (find_image_from_official_site env uj info.official_url).2) := by
  unfold image_chain
  rw [hp]
  dsimp only
  rw [chain_step_some _ _ _ hoff]
  rw [chain_step_some _ _ _ rfl]
  simp

/-- C2 (amended): when the entity's record is already in the cache, the
step uses that identical record, leaves the cache unchanged, and issues
no Wikipedia/Wikidata metadata requests at all — though image
acquisition can still issue requests when the output image is absent.
Stated outside the --update-folder-info + --use-bdbase augmentation
mode, which may extend the cached record with bdbase fields. -/
theorem cached_entity_uses_cached_record (env : NetEnv) (targs : TextEnv)
    (uj : List Char → List Char → List Char) (quote : String → String)
    (args : MainArgs) (bd : List (String × String)) (cache : Cache)
    (name : String) (info : Info)
    (hcache : cacheGet cache name = some info)
    (hflags : ¬ (args.update_folder_info = true ∧ args.use_bdbase = true)) :
    (process_entity env targs uj quote args bd cache name false).info = some info ∧
      (process_entity env targs uj quote args bd cache name false).cache = cache ∧
      ∀ x ∈ (process_entity env targs uj quote args bd cache name false).trace,
        x.isWikiApi = false := by
  unfold process_entity
  rw [if_neg (by simp)]
  dsimp only
  rw [lookup_or_resolve_cached env cache name info hcache]
  rw [bdbase_augment_skip env targs args name info hflags]
  dsimp only
  rw [if_neg (by simp)]
  rcases hic : (image_chain env targs uj quote args bd name info).1 with _ | r
  · simp only [hic]
    refine ⟨by first | rfl | trivial, by first | rfl | trivial, ?_⟩
    intro x hx
    simp only [List.nil_append] at hx
    exact image_chain_trace env targs uj quote args bd name info x hx
  · simp only [hic]
    split <;>
    · refine ⟨by first | rfl | trivial, by first | rfl | trivial, ?_⟩
      intro x hx
      simp only [List.nil_append] at hx
      exact image_chain_trace env targs uj quote args bd name info x hx

/-- C4: with --prefer official, whenever the official-site scan yields a
usable image, the step records that official-site candidate url as the
image source and never downloads the structured-data (wikimedia) file. -/
theorem prefer_official_ignores_wikimedia (env : NetEnv) (targs : TextEnv)
    (uj : List Char → List Char → List Char) (quote : String → String)
    (args : MainArgs) (bd : List (String × String)) (cache : Cache)
    (name : String) (img : PImage) (u : String)
    (hpref : args.prefer = Prefer.official)
    (hoff : (find_image_from_official_site env uj
        (bdbase_augment env targs args name
          (lookup_or_resolve env cache name).1).1.official_url).1 = some (img, u)) :
    (process_entity env targs uj quote args bd cache name false).source_url = some u ∧
      (process_entity env targs uj quote args bd cache name false).status =
        (if args.dry_run then "dry_run" else "ok") ∧
      ∀ x ∈ (process_entity env targs uj quote args bd cache name false).trace,
        x.isWikimediaDownload = false := by
  unfold process_entity
  rw [if_neg (by simp)]
  dsimp only
  rw [image_chain_official env targs uj quote args bd name
    (bdbase_augment env targs args name (lookup_or_resolve env cache name).1).1
    img u hpref hoff]
  dsimp only
  rw [if_neg (by simp)]
  have htrace : ∀ x ∈ (lookup_or_resolve env cache name).2.2 ++
      (bdbase_augment env targs args name (lookup_or_resolve env cache name).1).2.2.1 ++
      (find_image_from_official_site env uj
        (bdbase_augment env targs args name
          (lookup_or_resolve env cache name).1).1.official_url).2,
      x.isWikimediaDownload = false := by
    intro x hx
    simp only [List.mem_append] at hx
    rcases hx with (hx | hx) | hx
    · exact wikiApi_not_wikimedia x (lookup_or_resolve_trace env cache name x hx)
    · exact (bdbase_augment_trace env targs args name _ x hx).2
    · exact (find_official_trace env uj _ x hx).2
  refine ⟨?_, ?_, ?_⟩
  · split <;> rfl
  · split <;> rename_i h <;> simp [h]
  · split <;> exact htrace

/-- A concrete cached record for entity "Acme Comics". -/
def acmeInfo : Info :=
  ⟨some "Acme Comics", "fr", some "Q1", some "http://acme.example",
    some "Logo Acme.png", none, none, none⟩

/-- A cache that already holds "Acme Comics". -/
def acmeCache : Cache := [("Acme Comics", acmeInfo)]

/-- Identity Unicode primitives (exact on the ASCII inputs used here). -/
def targsId : TextEnv := ⟨id, fun _ => false, id⟩

/-- Default argparse options: prefer official, no bdbase, no folder-info
update, not a dry run, size 312. -/
def argsDefault : MainArgs := ⟨Prefer.official, false, false, false, 312⟩

/-- A network where the official site is unreachable and the wikimedia
file does not decode as an image. -/
def envOffline : NetEnv :=
  { wiki_search := fun _ _ => none
    wiki_pageprops := fun _ _ => none
    wikidata_claims := fun _ _ => none
    page := fun _ => none
    download_image := fun _ => some none
    bdbase_slug_page := fun _ => none
    bdbase_details := fun _ => none }

/-- C2 counterexample: for an entity whose name is a key of the cache
(and whose image file is absent) the step still issues network requests
— here two, the official-page fetch and the wikimedia file download —
refuting "zero network requests for that entity". -/
theorem cached_entity_still_issues_requests :
    cacheGet acmeCache "Acme Comics" = some acmeInfo ∧
      (process_entity envOffline targsId (fun _ u => u) id argsDefault []
          acmeCache "Acme Comics" false).trace.length = 2 ∧
      (process_entity envOffline targsId (fun _ u => u) id argsDefault []
          acmeCache "Acme Comics" false).trace ≠ [] := by
  refine ⟨rfl, rfl, ?_⟩
  intro h
  have : ([] : List ReqTag).length = 2 := by
    rw [← h]
    rfl
  simp at this

/-- Witness for `cached_entity_uses_cached_record`: the concrete cached
entity "Acme Comics" under the default options. -/
theorem cached_entity_uses_cached_record_witness :
    cacheGet acmeCache "Acme Comics" = some acmeInfo ∧
      ¬ (argsDefault.update_folder_info = true ∧ argsDefault.use_bdbase = true) ∧
      ((process_entity envOffline targsId (fun _ u => u) id argsDefault []
            acmeCache "Acme Comics" false).info = some acmeInfo ∧
        (process_entity envOffline targsId (fun _ u => u) id argsDefault []
            acmeCache "Acme Comics" false).cache = acmeCache ∧
        ∀ x ∈ (process_entity envOffline targsId (fun _ u => u) id argsDefault []
            acmeCache "Acme Comics" false).trace, x.isWikiApi = false) :=
  ⟨rfl, by decide,
    cached_entity_uses_cached_record envOffline targsId (fun _ u => u) id argsDefault
      [] acmeCache "Acme Comics" acmeInfo rfl (by decide)⟩

/-- A decoded 10×10 opaque image standing for og.png. -/
def ogImage : PImage := ⟨PMode.RGB, 10, 10, fun _ _ => (1, 2, 3, 255)⟩

/-- A network where acme.example serves a page carrying an og:image meta
tag and that image downloads and decodes, while the entity also has a
structured-data logo file. -/
def envAcme : NetEnv :=
  { wiki_search := fun _ _ => some "Acme Comics"
    wiki_pageprops := fun _ _ => some "Q1"
    wikidata_claims := fun _ p =>
      if p = "P856" then some "http://acme.example" else some "Logo Acme.png"
    page := fun u =>
      if u = "http://acme.example" then
        some ("http://acme.example/",
          [⟨"meta".toList,
            [("property".toList, some "og:image".toList),
             ("content".toList, some "http://acme.example/og.png".toList)]⟩])
      else none
    download_image := fun u =>
      if u = "http://acme.example/og.png" then some (some ogImage) else some none
    bdbase_slug_page := fun _ => none
    bdbase_details := fun _ => none }

/-- On the concrete Acme network, the official-site scan finds the
og:image url and downloads it successfully. -/
theorem acme_official_scan_succeeds :
    (find_image_from_official_site envAcme (fun _ u => u)
        (bdbase_augment envAcme targsId argsDefault "Acme Comics"
          (lookup_or_resolve envAcme acmeCache "Acme Comics").1).1.official_url).1 =
      some (ogImage, "http://acme.example/og.png") := by
  have h1 : (bdbase_augment envAcme targsId argsDefault "Acme Comics"
      (lookup_or_resolve envAcme acmeCache "Acme Comics").1).1.official_url =
      some "http://acme.example" := rfl
  rw [h1]
  have hcand : rank_candidates (fun _ u => u) "http://acme.example/".toList
      [⟨"meta".toList,
        [("property".toList, some "og:image".toList),
         ("content".toList, some "http://acme.example/og.png".toList)]⟩] =
      [⟨"http://acme.example/og.png".toList, 8, "meta"⟩] := by
    show List.mergeSort [(⟨"http://acme.example/og.png".toList, 8, "meta"⟩ : Candidate)]
      (fun a b => decide (b.score ≤ a.score)) = _
    exact List.mergeSort_singleton _
  unfold find_image_from_official_site
  rw [if_neg (by decide)]
  simp only [Option.getD_some]
  have hp : envAcme.page "http://acme.example" =
      some ("http://acme.example/",
        [⟨"meta".toList,
          [("property".toList, some "og:image".toList),
           ("content".toList, some "http://acme.example/og.png".toList)]⟩]) := rfl
  rw [hp]
  dsimp only
  rw [hcand]
  rfl

/-- Witness for `prefer_official_ignores_wikimedia`: "Acme Comics" with a
reachable official site whose page exposes og:image, and a
structured-data logo file; the og:image url is chosen. -/
theorem prefer_official_ignores_wikimedia_witness :
    argsDefault.prefer = Prefer.official ∧
      (find_image_from_official_site envAcme (fun _ u => u)
          (bdbase_augment envAcme targsId argsDefault "Acme Comics"
            (lookup_or_resolve envAcme acmeCache "Acme Comics").1).1.official_url).1 =
        some (ogImage, "http://acme.example/og.png") ∧
      ((process_entity envAcme targsId (fun _ u => u) id argsDefault [] acmeCache
            "Acme Comics" false).source_url = some "http://acme.example/og.png" ∧
        (process_entity envAcme targsId (fun _ u => u) id argsDefault [] acmeCache
            "Acme Comics" false).status =
          (if argsDefault.dry_run then "dry_run" else "ok") ∧
        ∀ x ∈ (process_entity envAcme targsId (fun _ u => u) id argsDefault []
            acmeCache "Acme Comics" false).trace, x.isWikimediaDownload = false) :=
  ⟨rfl, acme_official_scan_succeeds,
    prefer_official_ignores_wikimedia envAcme targsId (fun _ u => u) id argsDefault
      [] acmeCache "Acme Comics" ogImage "http://acme.example/og.png" rfl
      acme_official_scan_succeeds⟩
